import Mathlib

/-!
Verification of the `problem` package: a builder for RFC 7807 "Problem
Details" HTTP error payloads.  The package holds a mutable mapping from
field names to arbitrary JSON-serializable values, populated through
functional options (`Type`, `Title`, `Status`, `Detail`, `Instance`,
`Custom`), serialized with `encoding/json` (`MarshalJSON`, `JSON`,
`JSONString`) and emitted to an HTTP response writer (`WriteTo`).

Go byte slices are modelled as UTF-8 strings, `interface{}` values as the
inductive `Val` (with a constructor for values the JSON encoder rejects),
and `map[string]interface{}` as an association list with unique keys and
overwrite-on-assignment semantics, which matches Go map lookup/assignment.
`encoding/json` sorts map keys, so the encoder sorts entries by key.
-/

namespace problem

/-- Dynamic value stored in a Problem's field mapping, modelling the Go
`interface{}` payloads the claims exercise.  `unsupported` models a Go value
(such as a channel or function) that `encoding/json` cannot encode; its
argument names the Go type for the error message. -/
inductive Val where
  | str (s : String)
  | int (n : Int)
  | bool (b : Bool)
  | unsupported (goType : String)
  deriving DecidableEq, Repr

/-- Lookup in the field mapping, modelling Go `p.data[k]` two-result reads. -/
def mapGet : List (String × Val) → String → Option Val
  | [], _ => none
  | (k', v) :: rest, k => if k' = k then some v else mapGet rest k

/-- Assignment `p.data[k] = v` on a Go map: overwrites the binding of `k`
when present, otherwise adds one; keys stay unique. -/
def mapSet : List (String × Val) → String → Val → List (String × Val)
  | [], k, v => [(k, v)]
  | (k', v') :: rest, k, v =>
      if k' = k then (k, v) :: rest else (k', v') :: mapSet rest k v

/-- The Problem struct: `type Problem struct { data map[string]interface{} }`,
here in the state reachable through `New`, where `data` is an initialized
map.  (The nil-map state of a zero value is modelled separately by
`GoProblem`.) -/
structure Problem where
  data : List (String × Val)
  deriving DecidableEq, Repr

/-- An Option in the functional-options pattern: `optionFunc func(*Problem)`,
a deferred mutation of the Problem. -/
def PbOption : Type := Problem → Problem

/-- Type sets the `type` URI: `problem.data["type"] = uri`. -/
def Type' (uri : String) : PbOption :=
  fun p => ⟨mapSet p.data "type" (Val.str uri)⟩

/-- Title sets the `title` field: `problem.data["title"] = title`. -/
def Title (title : String) : PbOption :=
  fun p => ⟨mapSet p.data "title" (Val.str title)⟩

/-- Status sets the HTTP status code: `problem.data["status"] = status`,
stored with Go type `int`. -/
def Status (status : Int) : PbOption :=
  fun p => ⟨mapSet p.data "status" (Val.int status)⟩

/-- Detail sets the `detail` field: `problem.data["detail"] = detail`. -/
def Detail (detail : String) : PbOption :=
  fun p => ⟨mapSet p.data "detail" (Val.str detail)⟩

/-- Instance sets the `instance` URI: `problem.data["instance"] = uri`. -/
def Instance (uri : String) : PbOption :=
  fun p => ⟨mapSet p.data "instance" (Val.str uri)⟩

/-- Custom sets a caller-supplied key: `problem.data[key] = value`. -/
def Custom (key : String) (value : Val) : PbOption :=
  fun p => ⟨mapSet p.data key value⟩

/-- New generates a new Problem: starts from an initialized empty map and
applies each option left to right. -/
def New (opts : List PbOption) : Problem :=
  opts.foldl (fun p o => o p) ⟨[]⟩

/-- Append applies additional options to an existing Problem, left to right.
(The pure value result; reference identity of the Go pointer receiver is
modelled by `AppendH` on an explicit heap.) -/
def Problem.Append (p : Problem) (opts : List PbOption) : Problem :=
  opts.foldl (fun p o => o p) p

/-- Hexadecimal digit for the `\u00XX` escapes `encoding/json` emits. -/
def hexDigit (n : Nat) : Char :=
  if n < 10 then Char.ofNat (48 + n) else Char.ofNat (87 + n)

/-- Escape of one character inside a JSON string, following `encoding/json`
with its default HTML escaping of `<`, `>` and `&`. -/
def escChar (c : Char) : List Char :=
  if c = '"' then ['\\', '"']
  else if c = '\\' then ['\\', '\\']
  else if c = '\n' then ['\\', 'n']
  else if c = '\r' then ['\\', 'r']
  else if c = '\t' then ['\\', 't']
  else if c = '<' ∨ c = '>' ∨ c = '&' then
    ['\\', 'u', '0', '0', hexDigit (c.toNat / 16), hexDigit (c.toNat % 16)]
  else if c.toNat < 32 then
    ['\\', 'u', '0', '0', hexDigit (c.toNat / 16), hexDigit (c.toNat % 16)]
  else [c]

/-- JSON string literal for `s`, quotes included. -/
def encStr (s : String) : String :=
  ⟨'"' :: (s.data.flatMap escChar) ++ ['"']⟩

/-- JSON encoding of one value; fails on values `encoding/json` does not
support, as `json.Marshal` does. -/
def encVal : Val → Except String String
  | Val.str s => Except.ok (encStr s)
  | Val.int n => Except.ok (toString n)
  | Val.bool b => Except.ok (if b then "true" else "false")
  | Val.unsupported goType =>
      Except.error ("json: unsupported type: " ++ goType)

/-- Lexicographic order on keys by code point, which on UTF-8 encodings
coincides with the byte order `sort.Strings` uses on map keys. -/
def keyLt : List Char → List Char → Bool
  | [], [] => false
  | [], _ :: _ => true
  | _ :: _, [] => false
  | a :: as, b :: bs =>
      if a.toNat < b.toNat then true
      else if b.toNat < a.toNat then false
      else keyLt as bs

/-- Insert one entry into a key-sorted entry list, keeping it sorted;
`encoding/json` emits map keys in sorted byte order. -/
def insertSorted (e : String × Val) : List (String × Val) → List (String × Val)
  | [] => [e]
  | x :: xs => if keyLt e.1.data x.1.data then e :: x :: xs else x :: insertSorted e xs

/-- Sort the field mapping by key, as `encoding/json` does for maps. -/
def sortEntries (d : List (String × Val)) : List (String × Val) :=
  d.foldr insertSorted []

/-- JSON encoding of the sorted entries, comma separated. -/
def encEntries : List (String × Val) → Except String String
  | [] => Except.ok ""
  | [(k, v)] => do
      let ev ← encVal v
      Except.ok (encStr k ++ ":" ++ ev)
  | (k, v) :: rest => do
      let ev ← encVal v
      let er ← encEntries rest
      Except.ok (encStr k ++ ":" ++ ev ++ "," ++ er)

/-- MarshalJSON implements the json.Marshaler interface:
`json.Marshal(&p.data)`, an object with the map's keys in sorted order;
returns the encoder's error when some value is unsupported. -/
def Problem.MarshalJSON (p : Problem) : Except String String := do
  let body ← encEntries (sortEntries p.data)
  Except.ok ("\x7b" ++ body ++ "\x7d")

/-- JSON returns the Problem as json bytes: `b, _ := p.MarshalJSON()`
discards the error, and `json.Marshal` returns nil bytes on failure, so an
encoding failure yields the empty byte slice. -/
def Problem.JSON (p : Problem) : String :=
  match p.MarshalJSON with
  | Except.ok s => s
  | Except.error _ => ""

/-- JSONString returns the Problem as json string: `string(p.JSON())`. -/
def Problem.JSONString (p : Problem) : String :=
  p.JSON

/-- A call to one of the six option constructors, used to quantify over
"every sequence of options" in the claims; `toOpt` maps it to the actual
constructor's closure. -/
inductive OptCall where
  | type' (uri : String)
  | title (t : String)
  | status (n : Int)
  | detail (d : String)
  | instance' (uri : String)
  | custom (k : String) (v : Val)
  deriving DecidableEq, Repr

/-- Key targeted by an option constructor call. -/
def OptCall.key : OptCall → String
  | type' _ => "type"
  | title _ => "title"
  | status _ => "status"
  | detail _ => "detail"
  | instance' _ => "instance"
  | custom k _ => k

/-- Value carried by an option constructor call. -/
def OptCall.value : OptCall → Val
  | type' u => Val.str u
  | title t => Val.str t
  | status n => Val.int n
  | detail d => Val.str d
  | instance' u => Val.str u
  | custom _ v => v

/-- The actual option produced by the constructor call. -/
def OptCall.toOpt : OptCall → PbOption
  | type' u => Type' u
  | title t => Title t
  | status n => Status n
  | detail d => Detail d
  | instance' u => Instance u
  | custom k v => Custom k v

/-- Sequential application of option calls to a raw field mapping. -/
def applyList (os : List OptCall) (d : List (String × Val)) :
    List (String × Val) :=
  os.foldl (fun d o => mapSet d o.key o.value) d

/-- The abstract response-sink capability set `WriteTo` depends on: set a
header, set the status line, write body bytes returning the byte count and
any transport error.  `σ` is the sink's state. -/
structure RW (σ : Type) where
  setHeader : σ → String → String → σ
  writeHeader : σ → Int → σ
  write : σ → String → σ × Nat × Option String

/-- WriteTo writes the Problem to a http Response Writer: sets the
Content-Type header, then, if `data["status"]` exists and is a Go `int`,
sets the status line, then writes `p.JSON()` and returns the write's
result. -/
def Problem.WriteTo {σ : Type} (rw : RW σ) (p : Problem) (w : σ) :
    σ × Nat × Option String :=
  let w1 := rw.setHeader w "Content-Type" "application/problem+json"
  let w2 :=
    match mapGet p.data "status" with
    | some (Val.int statusint) => rw.writeHeader w1 statusint
    | _ => w1
  rw.write w2 p.JSON

/-- Observable action of a response sink, for stating ordering contracts. -/
inductive Ev where
  | setHeader (name value : String)
  | writeHeader (code : Int)
  | writeBody (body : String)
  deriving DecidableEq, Repr

/-- A mock sink that records every action in order. -/
structure TraceSink where
  events : List Ev
  deriving DecidableEq, Repr

/-- The recording implementation of the sink capabilities; a body write
reports the UTF-8 byte count and no transport error. -/
def traceRW : RW TraceSink where
  setHeader := fun s n v => ⟨s.events ++ [Ev.setHeader n v]⟩
  writeHeader := fun s c => ⟨s.events ++ [Ev.writeHeader c]⟩
  write := fun s b => (⟨s.events ++ [Ev.writeBody b]⟩, b.utf8ByteSize, none)

/-- A mock sink whose transport fails: every body write reports `err` and a
stored byte count. -/
structure FailSink where
  err : String
  reported : Nat
  deriving DecidableEq, Repr

/-- The failing implementation of the sink capabilities. -/
def failRW : RW FailSink where
  setHeader := fun s _ _ => s
  writeHeader := fun s _ => s
  write := fun s _ => (s, s.reported, some s.err)

/-- A heap of Problem cells, making Go pointer identity explicit: a
`*Problem` is an index into the heap. -/
structure Heap where
  cells : List (List (String × Val))
  deriving DecidableEq, Repr

/-- Dereference a Problem pointer. -/
def readCell (h : Heap) (r : Nat) : Option (List (String × Val)) :=
  h.cells[r]?

/-- Store through a Problem pointer. -/
def writeCell (h : Heap) (r : Nat) (d : List (String × Val)) : Heap :=
  ⟨h.cells.set r d⟩

/-- Application of one option through a pointer: the closure mutates the
pointed-to Problem's map in place. -/
def applyOptH (f : PbOption) (r : Nat) (h : Heap) : Heap :=
  match readCell h r with
  | some d => writeCell h r (f ⟨d⟩).data
  | none => h

/-- New on the heap: `problem := &Problem{}` allocates, the map is
initialized, then options are applied through the pointer, which is
returned. -/
def NewH (opts : List PbOption) (h : Heap) : Nat × Heap :=
  (h.cells.length,
   opts.foldl (fun h f => applyOptH f r h) (⟨h.cells ++ [[]]⟩ : Heap)) where
  r := h.cells.length

/-- Append on the heap: `(p *Problem).Append(opts...)` applies each option
through the receiver pointer and returns that same pointer. -/
def AppendH (r : Nat) (opts : List PbOption) (h : Heap) : Nat × Heap :=
  (r, opts.foldl (fun h f => applyOptH f r h) h)

/-- The Problem struct with the nil-map state of a Go zero value kept
visible: `data = none` models an uninitialized (nil) map. -/
structure GoProblem where
  data : Option (List (String × Val))
  deriving DecidableEq, Repr

/-- The zero value `var p Problem`: its map is nil. -/
def GoProblem.zero : GoProblem := ⟨none⟩

/-- The Go runtime panic message for assigning into a nil map. -/
def nilMapMsg : String := "assignment to entry in nil map"

/-- Application of one option with the nil-map check made explicit: every
option's closure performs exactly one map assignment, which panics when the
map is nil. -/
def applyOptGo (o : OptCall) (p : GoProblem) : Except String GoProblem :=
  match p.data with
  | none => Except.error nilMapMsg
  | some d => Except.ok ⟨some (mapSet d o.key o.value)⟩

/-- Left-to-right option application in the nil-aware model. -/
def runOptsGo : List OptCall → GoProblem → Except String GoProblem
  | [], p => Except.ok p
  | o :: rest, p =>
      match applyOptGo o p with
      | Except.ok p' => runOptsGo rest p'
      | Except.error e => Except.error e

/-- New in the nil-aware model: the map is initialized before any option
runs. -/
def NewGo (os : List OptCall) : Except String GoProblem :=
  runOptsGo os ⟨some []⟩

/-- Append in the nil-aware model: options are applied to the receiver as
it is, with no nil check. -/
def AppendGo (p : GoProblem) (os : List OptCall) : Except String GoProblem :=
  runOptsGo os p

/-- Hexadecimal digit value of a character, for the decoder. -/
def unhex (c : Char) : Option Nat :=
  if '0' ≤ c ∧ c ≤ '9' then some (c.toNat - 48)
  else if 'a' ≤ c ∧ c ≤ 'f' then some (c.toNat - 87)
  else if 'A' ≤ c ∧ c ≤ 'F' then some (c.toNat - 55)
  else none

/-- Decoded form of a single-character JSON escape. -/
def decEsc (c : Char) : Option Char :=
  if c = '"' then some '"'
  else if c = '\\' then some '\\'
  else if c = '/' then some '/'
  else if c = 'n' then some '\n'
  else if c = 'r' then some '\r'
  else if c = 't' then some '\t'
  else none

/-- Body of a JSON string literal after its opening quote: returns the
decoded characters and the input after the closing quote.  Part of a
standard JSON decoder, used only to state round-trip properties (the
repository itself provides no deserialization).  `fuel` bounds the
recursion by the input length. -/
def parseStrBody : Nat → List Char → Option (List Char × List Char)
  | 0, _ => none
  | _, [] => none
  | fuel + 1, c :: rest =>
      if c = '"' then some ([], rest)
      else if c = '\\' then
        match rest with
        | 'u' :: h1 :: h2 :: h3 :: h4 :: t => do
            let a ← unhex h1
            let b ← unhex h2
            let c2 ← unhex h3
            let d ← unhex h4
            let (s, r) ← parseStrBody fuel t
            some (Char.ofNat (((a * 16 + b) * 16 + c2) * 16 + d) :: s, r)
        | e :: t => do
            let d ← decEsc e
            let (s, r) ← parseStrBody fuel t
            some (d :: s, r)
        | [] => none
      else do
        let (s, r) ← parseStrBody fuel rest
        some (c :: s, r)

/-- Natural number denoted by a digit run. -/
def digitsToNat (ds : List Char) : Nat :=
  ds.foldl (fun a c => a * 10 + (c.toNat - 48)) 0

/-- One JSON value (string, boolean or integer) at the head of the input. -/
def parseVal (cs : List Char) : Option (Val × List Char) :=
  match cs with
  | [] => none
  | c :: rest =>
      if c = '"' then
        (parseStrBody (rest.length + 1) rest).map (fun p => (Val.str ⟨p.1⟩, p.2))
      else if c = 't' then
        if rest.take 3 = ['r', 'u', 'e'] then some (Val.bool true, rest.drop 3)
        else none
      else if c = 'f' then
        if rest.take 4 = ['a', 'l', 's', 'e'] then some (Val.bool false, rest.drop 4)
        else none
      else if c = '-' then
        let (ds, r) := rest.span (fun d => d.isDigit)
        if ds = [] then none else some (Val.int (-(digitsToNat ds : Int)), r)
      else
        let (ds, r) := cs.span (fun d => d.isDigit)
        if ds = [] then none else some (Val.int ((digitsToNat ds : Nat) : Int), r)

/-- Comma-separated `"key":value` entries up to the closing brace; `fuel`
bounds the recursion by the input length. -/
def parseEntries : Nat → List Char → Option (List (String × Val) × List Char)
  | 0, _ => none
  | fuel + 1, cs =>
      match cs with
      | '"' :: rest => do
          let (k, r1) ← parseStrBody (rest.length + 1) rest
          match r1 with
          | ':' :: r2 => do
              let (v, r3) ← parseVal r2
              match r3 with
              | ',' :: r4 => do
                  let (es, r5) ← parseEntries fuel r4
                  some ((⟨k⟩, v) :: es, r5)
              | '\x7d' :: r4 => some ([(⟨k⟩, v)], r4)
              | _ => none
          | _ => none
      | _ => none

/-- Decoder for a flat JSON object document, modelling a standard JSON
decoder on the documents this package emits. -/
def decodeObj (s : String) : Option (List (String × Val)) :=
  match s.data with
  | '\x7b' :: '\x7d' :: rest => if rest = [] then some [] else none
  | '\x7b' :: cs =>
      match parseEntries (cs.length + 1) cs with
      | some (es, []) => some es
      | _ => none
  | _ => none

/-- The end-to-end example Problem of the spec's rate-limit scenario. -/
def rlProblem : Problem :=
  New [ Type' "https://x/probs/rl", Title "Too Many Requests", Status 429,
        Detail "Retry after 30s", Custom "retry_after" (Val.int 30)]

/-- Its serialized document, keys in the sorted order `encoding/json`
uses. -/
def rlJSON : String :=
  "\x7b\"detail\":\"Retry after 30s\",\"retry_after\":30,\"status\":429,\"title\":\"Too Many Requests\",\"type\":\"https://x/probs/rl\"\x7d"

/-! Map lemmas. -/

theorem mapGet_mapSet_self (d : List (String × Val)) (k : String) (v : Val) :
    mapGet (mapSet d k v) k = some v := by
  induction d with
  | nil => simp [mapSet, mapGet]
  | cons x rest ih =>
      obtain ⟨k', v'⟩ := x
      by_cases h : k' = k
      · simp [mapSet, h, mapGet]
      · simp [mapSet, h, mapGet, ih]

theorem mapGet_mapSet_ne (d : List (String × Val)) (k k' : String) (v : Val)
    (h : k' ≠ k) : mapGet (mapSet d k v) k' = mapGet d k' := by
  have h' : k ≠ k' := Ne.symm h
  induction d with
  | nil => simp [mapSet, mapGet, h']
  | cons x rest ih =>
      obtain ⟨k₀, v₀⟩ := x
      by_cases h0 : k₀ = k
      · subst h0
        simp [mapSet, mapGet, h']
      · simp [mapSet, h0, mapGet, ih]

theorem OptCall.toOpt_apply (o : OptCall) (p : Problem) :
    o.toOpt p = ⟨mapSet p.data o.key o.value⟩ := by
  cases o <;> rfl

theorem foldl_toOpt (os : List OptCall) (d : List (String × Val)) :
    (os.map OptCall.toOpt).foldl (fun p o => o p) ⟨d⟩ = ⟨applyList os d⟩ := by
  induction os generalizing d with
  | nil => rfl
  | cons o os ih =>
      rw [List.map_cons, List.foldl_cons, OptCall.toOpt_apply o ⟨d⟩]
      exact ih _

theorem applyList_mapGet (os : List OptCall) (d : List (String × Val))
    (k : String) :
    mapGet (applyList os d) k =
      match os.reverse.find? (fun o => o.key == k) with
      | some o => some o.value
      | none => mapGet d k := by
  induction os generalizing d with
  | nil => rfl
  | cons o os ih =>
      have hstep : applyList (o :: os) d = applyList os (mapSet d o.key o.value) :=
        rfl
      rw [hstep, ih, List.reverse_cons, List.find?_append]
      cases hfind : os.reverse.find? (fun o => o.key == k) with
      | some o' => rfl
      | none =>
          by_cases hk : o.key = k
          · simp [List.find?_cons, hk, mapGet_mapSet_self]
          · simp [List.find?_cons, hk, mapGet_mapSet_ne _ _ _ _ (Ne.symm hk)]

/-! Heap lemmas. -/

theorem readCell_lt (h : Heap) (r : Nat) (d : List (String × Val))
    (hd : readCell h r = some d) : r < h.cells.length := by
  by_contra hge
  have : h.cells[r]? = none := List.getElem?_eq_none (Nat.le_of_not_lt hge)
  rw [readCell, this] at hd
  exact Option.noConfusion hd

theorem readCell_writeCell_self (h : Heap) (r : Nat) (d : List (String × Val))
    (hr : r < h.cells.length) : readCell (writeCell h r d) r = some d := by
  simp [readCell, writeCell, List.getElem?_set_self hr]

theorem readCell_writeCell_ne (h : Heap) (r r' : Nat) (d : List (String × Val))
    (hne : r' ≠ r) : readCell (writeCell h r d) r' = readCell h r' := by
  simp [readCell, writeCell, List.getElem?_set_ne (Ne.symm hne)]

theorem heapFold_readCell_ne (fs : List PbOption) (r r' : Nat) (h : Heap)
    (hne : r' ≠ r) :
    readCell (fs.foldl (fun h f => applyOptH f r h) h) r' = readCell h r' := by
  induction fs generalizing h with
  | nil => rfl
  | cons f fs ih =>
      rw [List.foldl_cons, ih]
      unfold applyOptH
      cases hh : readCell h r with
      | none => rfl
      | some d => exact readCell_writeCell_ne _ _ _ _ hne

theorem heapFold_readCell_self (os : List OptCall) (r : Nat) (h : Heap)
    (d : List (String × Val)) (hd : readCell h r = some d) :
    readCell ((os.map OptCall.toOpt).foldl (fun h f => applyOptH f r h) h) r =
      some (applyList os d) := by
  induction os generalizing h d with
  | nil => simpa [applyList] using hd
  | cons o os ih =>
      have hr : r < h.cells.length := readCell_lt h r d hd
      rw [List.map_cons, List.foldl_cons]
      have h1 : applyOptH o.toOpt r h = writeCell h r (mapSet d o.key o.value) := by
        unfold applyOptH
        rw [hd]
        show writeCell h r (o.toOpt ⟨d⟩).data = _
        rw [OptCall.toOpt_apply]
      rw [h1]
      have h2 : readCell (writeCell h r (mapSet d o.key o.value)) r =
          some (mapSet d o.key o.value) :=
        readCell_writeCell_self _ _ _ (by simpa [writeCell] using hr)
      exact ih _ _ h2

/-! Nil-map model lemmas. -/

theorem runOptsGo_some (os : List OptCall) (d : List (String × Val)) :
    runOptsGo os ⟨some d⟩ = Except.ok ⟨some (applyList os d)⟩ := by
  induction os generalizing d with
  | nil => rfl
  | cons o os ih =>
      have hstep : runOptsGo (o :: os) ⟨some d⟩ =
          runOptsGo os ⟨some (mapSet d o.key o.value)⟩ := rfl
      rw [hstep, ih]
      rfl

/-! Claim theorems. -/

/-- C1: for every sequence of option-constructor calls applied via `New`,
the resulting Problem's field mapping binds exactly the keys targeted by
some call, and each bound key carries the value of the LAST call in the
sequence targeting it (last-write-wins, never merged).  `MarshalJSON`
serializes exactly this mapping, so the serialized document contains
exactly these keys and values. -/
theorem C1_new_exact_keys_last_write_wins (os : List OptCall) (k : String) :
    mapGet (New (os.map OptCall.toOpt)).data k =
      match os.reverse.find? (fun o => o.key == k) with
      | some o => some o.value
      | none => none := by
  have hnew : New (os.map OptCall.toOpt) = ⟨applyList os []⟩ := foldl_toOpt os []
  rw [hnew, applyList_mapGet]
  cases os.reverse.find? (fun o => o.key == k) <;> rfl

/-- C2: `WriteTo` sets the response status line to the value of the
`status` field precisely when that field is present with a Go `int` value,
and it does so after the Content-Type header and strictly before the single
body write; when `status` is absent or not an `int`, no status event is
emitted at all, so the sink keeps its transport default. -/
theorem C2_writeTo_status_iff_int_before_body (p : Problem) :
    (∀ n : Int, mapGet p.data "status" = some (Val.int n) →
      (p.WriteTo traceRW ⟨[]⟩).1.events =
        [Ev.setHeader "Content-Type" "application/problem+json",
         Ev.writeHeader n, Ev.writeBody p.JSON])
    ∧ ((∀ n : Int, mapGet p.data "status" ≠ some (Val.int n)) →
      (p.WriteTo traceRW ⟨[]⟩).1.events =
        [Ev.setHeader "Content-Type" "application/problem+json",
         Ev.writeBody p.JSON]) := by
  constructor
  · intro n hn
    simp [Problem.WriteTo, traceRW, hn]
  · intro hnone
    cases hs : mapGet p.data "status" with
    | none => simp [Problem.WriteTo, traceRW, hs]
    | some v =>
        cases v with
        | int n => exact absurd hs (hnone n)
        | str s => simp [Problem.WriteTo, traceRW, hs]
        | bool b => simp [Problem.WriteTo, traceRW, hs]
        | unsupported t => simp [Problem.WriteTo, traceRW, hs]

/-- Witness for C2: a Problem with `Status(429)` emits the status event
between header and body; one with `Custom("status", "not-a-number")` emits
no status event. -/
theorem C2_writeTo_status_witness :
    ((New [Status 429]).WriteTo traceRW ⟨[]⟩).1.events =
      [Ev.setHeader "Content-Type" "application/problem+json",
       Ev.writeHeader 429, Ev.writeBody (New [Status 429]).JSON]
    ∧ ((New [Custom "status" (Val.str "not-a-number")]).WriteTo traceRW ⟨[]⟩).1.events =
      [Ev.setHeader "Content-Type" "application/problem+json",
       Ev.writeBody (New [Custom "status" (Val.str "not-a-number")]).JSON] := by
  constructor
  · exact (C2_writeTo_status_iff_int_before_body (New [Status 429])).1 429 rfl
  · exact (C2_writeTo_status_iff_int_before_body
      (New [Custom "status" (Val.str "not-a-number")])).2
      (fun n hn => by simp [mapGet, New, Custom, mapSet] at hn)

/-- C3: `Append` applies the options left to right through the receiver
pointer, mutating the pointed-to Problem in place: it returns the very same
pointer, every other heap cell is untouched, and in the receiver's mapping
every key not targeted by a new option keeps its prior value while every
targeted key is overwritten with the last targeting option's value. -/
theorem C3_append_same_instance_frame (h : Heap) (r : Nat)
    (d : List (String × Val)) (os : List OptCall)
    (hd : readCell h r = some d) :
    (AppendH r (os.map OptCall.toOpt) h).1 = r
    ∧ readCell (AppendH r (os.map OptCall.toOpt) h).2 r = some (applyList os d)
    ∧ (∀ r', r' ≠ r →
        readCell (AppendH r (os.map OptCall.toOpt) h).2 r' = readCell h r')
    ∧ (∀ k, mapGet (applyList os d) k =
        match os.reverse.find? (fun o => o.key == k) with
        | some o => some o.value
        | none => mapGet d k) := by
  refine ⟨rfl, heapFold_readCell_self os r h d hd,
    fun r' hne => heapFold_readCell_ne _ r r' h hne,
    fun k => applyList_mapGet os d k⟩

/-- Witness for C3 at a one-cell heap holding `title = "t"`, appending
`Detail("x")`: the same pointer comes back and the cell now holds both
fields. -/
theorem C3_append_witness :
    (AppendH 0 ([OptCall.detail "x"].map OptCall.toOpt)
        ⟨[[("title", Val.str "t")]]⟩).1 = 0
    ∧ readCell (AppendH 0 ([OptCall.detail "x"].map OptCall.toOpt)
        ⟨[[("title", Val.str "t")]]⟩).2 0 =
      some (applyList [OptCall.detail "x"] [("title", Val.str "t")]) := by
  have h := C3_append_same_instance_frame ⟨[[("title", Val.str "t")]]⟩ 0
    [("title", Val.str "t")] [OptCall.detail "x"] rfl
  exact ⟨h.1, h.2.1⟩

/-- C4: the convenience serializers never propagate an encoding failure:
`JSON` returns the encoder's bytes on success and the empty byte slice on
failure, and `JSONString` is exactly the string view of `JSON`; the
explicit entry point `MarshalJSON` is the one that surfaces the encoding
error to its callers. -/
theorem C4_serialization_error_policy (p : Problem) :
    p.JSONString = p.JSON
    ∧ (∀ s, p.MarshalJSON = Except.ok s → p.JSON = s)
    ∧ (∀ e, p.MarshalJSON = Except.error e → p.JSON = "") := by
  refine ⟨rfl, ?_, ?_⟩ <;> intro x hx <;> simp [Problem.JSON, hx]

/-- Witness for C4: on a Problem holding a value `encoding/json` rejects,
`MarshalJSON` reports the error while `JSON` and `JSONString` return
empty results. -/
theorem C4_serialization_witness :
    (Problem.mk [("f", Val.unsupported "func()")]).JSON = ""
    ∧ (Problem.mk [("f", Val.unsupported "func()")]).JSONString = "" := by
  have h := C4_serialization_error_policy (Problem.mk [("f", Val.unsupported "func()")])
  have he := h.2.2 "json: unsupported type: func()" rfl
  exact ⟨he, h.1.trans he⟩

/-- C5: `WriteTo` returns exactly what the sink's body write returns —
byte count and error; on a failing transport the error value comes back
verbatim for every possible error, and on a successful transport the byte
count of the serialized body with no error. -/
theorem C5_writeTo_propagates_transport_result (p : Problem) (e : String)
    (n : Nat) :
    p.WriteTo failRW ⟨e, n⟩ = (⟨e, n⟩, n, some e)
    ∧ (p.WriteTo traceRW ⟨[]⟩).2 = (p.JSON.utf8ByteSize, none) := by
  constructor <;>
    · cases hs : mapGet p.data "status" with
      | none => simp [Problem.WriteTo, failRW, traceRW, hs]
      | some v => cases v <;> simp [Problem.WriteTo, failRW, traceRW, hs]

/-- C6: the first thing `WriteTo` does, for every Problem including the
empty one, is set the Content-Type header to exactly
`application/problem+json`. -/
theorem C6_writeTo_content_type (p : Problem) :
    (p.WriteTo traceRW ⟨[]⟩).1.events.head? =
      some (Ev.setHeader "Content-Type" "application/problem+json") := by
  cases hs : mapGet p.data "status" with
  | none => simp [Problem.WriteTo, traceRW, hs]
  | some v => cases v <;> simp [Problem.WriteTo, traceRW, hs]

/-- C7: `New()` with zero options yields a valid Problem whose map is
initialized (non-null) and empty, and it serializes to exactly the empty
JSON object. -/
theorem C7_empty_new_serializes_empty_object :
    New [] = ⟨[]⟩
    ∧ NewGo [] = Except.ok ⟨some []⟩
    ∧ (New []).MarshalJSON = Except.ok "\x7b\x7d"
    ∧ (New []).JSONString = "\x7b\x7d" :=
  ⟨rfl, rfl, rfl, rfl⟩

/-- C8: the rate-limit scenario serializes to a document with exactly the
keys `detail`, `retry_after`, `status`, `title`, `type` and the claimed
values (witnessed both by the exact document and by decoding it), and
`WriteTo` sets status 429 after the Content-Type header and writes exactly
that document as the body. -/
theorem C8_end_to_end_rate_limit :
    rlProblem.MarshalJSON = Except.ok rlJSON
    ∧ rlProblem.JSONString = rlJSON
    ∧ decodeObj rlJSON =
        some [("detail", Val.str "Retry after 30s"),
              ("retry_after", Val.int 30), ("status", Val.int 429),
              ("title", Val.str "Too Many Requests"),
              ("type", Val.str "https://x/probs/rl")]
    ∧ rlProblem.WriteTo traceRW ⟨[]⟩ =
        (⟨[Ev.setHeader "Content-Type" "application/problem+json",
           Ev.writeHeader 429, Ev.writeBody rlJSON]⟩,
         rlJSON.utf8ByteSize, none) :=
  ⟨rfl, rfl, rfl, rfl⟩

/-- C9: a Problem built with `Status(403)` stores the Go `int` 403, its
document serializes that field as the JSON number 403, and decoding the
serialized document yields the `status` field with integer value 403. -/
theorem C9_status_roundtrip :
    mapGet (New [Status 403]).data "status" = some (Val.int 403)
    ∧ (New [Status 403]).MarshalJSON = Except.ok "\x7b\"status\":403\x7d"
    ∧ decodeObj ((New [Status 403]).JSONString) = some [("status", Val.int 403)] :=
  ⟨rfl, rfl, rfl⟩

/-- C10: every option applies by a bare map assignment, total exactly on
Problems whose map was initialized by `New`: `New` always succeeds and
yields an initialized map, `Append` after `New` always succeeds, and
`Append` on the zero-value Problem (nil map) with any key-setting option
fails with the nil-map assignment error. -/
theorem C10_nil_map_safety :
    (∀ os : List OptCall,
      NewGo os = Except.ok ⟨some (applyList os [])⟩)
    ∧ (∀ (os os₂ : List OptCall) (p : GoProblem), NewGo os = Except.ok p →
        AppendGo p os₂ = Except.ok ⟨some (applyList os₂ (applyList os []))⟩)
    ∧ (∀ (o : OptCall) (os : List OptCall),
        AppendGo GoProblem.zero (o :: os) = Except.error nilMapMsg) := by
  refine ⟨fun os => runOptsGo_some os [], ?_, fun o os => rfl⟩
  intro os os₂ p hp
  have hall : Except.ok (ε := String) p =
      Except.ok (⟨some (applyList os [])⟩ : GoProblem) :=
    hp.symm.trans (runOptsGo_some os [])
  have hp' : p = ⟨some (applyList os [])⟩ := Except.ok.inj hall
  rw [hp']
  exact runOptsGo_some os₂ (applyList os [])

/-- Witness for C10: after `New(Title("t"))` an append of `Detail("d")`
succeeds, while the same append on the zero-value Problem hits the nil-map
failure. -/
theorem C10_nil_map_witness :
    AppendGo ⟨some (applyList [OptCall.title "t"] [])⟩ [OptCall.detail "d"] =
      Except.ok ⟨some (applyList [OptCall.detail "d"]
        (applyList [OptCall.title "t"] []))⟩
    ∧ AppendGo GoProblem.zero [OptCall.detail "d"] = Except.error nilMapMsg := by
  refine ⟨?_, C10_nil_map_safety.2.2 (OptCall.detail "d") []⟩
  exact C10_nil_map_safety.2.1 [OptCall.title "t"] [OptCall.detail "d"]
    ⟨some (applyList [OptCall.title "t"] [])⟩ rfl

end problem

